import Mathlib

/-!
Shallow embedding of the fkesh file-cache service (src/service.rs, src/error.rs,
src/types.rs).

The filesystem is modelled as a state `FS`: a partial map from string paths to
file contents plus a set of existing directories.  `fs::write`, `fs::remove_file`
and `fs::create_dir_all` become pure state transformers; the idealised
filesystem never fails (the spec treats the filesystem as an external
collaborator providing atomic-enough create/write/read/remove).

Paths are strings joined with the separator character, mirroring
`Path::new(a).join(b)` for relative components.

The serde codec for the cached value type is a parameter (`Codec`): `enc` may
fail (`serde_json::to_string` returns `Result`), `dec` may fail
(`serde_json::from_str`).  The metadata decoder `serde_json::from_str::
<FileCacheItemMetadata>` is likewise a parameter of `get`.  Metadata
serialisation is modelled by the total function `metadataToJson`, since
`serde_json::to_string` on a plain struct of two `u64` fields cannot fail.

The system clock (`SystemTime::now().duration_since(UNIX_EPOCH)`) is modelled
by an `Option Nat` parameter: `some t` is a successful reading of `t` seconds,
`none` is a reading that fails because the clock is before the epoch.

`store` additionally returns the list of filesystem mutation events it
performed, in order, so that temporal claims about write ordering are statable.
-/

namespace Fkesh

/-- Error type from src/error.rs. -/
inductive FileCacheError
  | Default
  | EncodingError
  | IOError
deriving DecidableEq

/-- Metadata sidecar record from src/service.rs. -/
structure FileCacheItemMetadata where
  ttl_secs : Nat
  created_unixtime : Nat
deriving DecidableEq

/-- The service configuration from src/service.rs. -/
structure FileCacheService where
  root_path : String
  instance_name : String

def CACHE_FILENAME_POSTFIX : String := "cache.json"

def METADATA_FILENAME_POSTFIX : String := "cache-metadata.json"

/-- Filesystem state: contents of regular files, and the set of directories. -/
structure FS where
  files : String → Option String
  dirs : String → Bool

/-- One filesystem mutation performed by the service, in the order issued. -/
inductive FsEvent
  | createDirAll (path : String)
  | write (path : String) (content : String)
  | remove (path : String)
deriving DecidableEq

def FS.fileExists (fs : FS) (p : String) : Bool := (fs.files p).isSome

/-- Rust `Path::exists`: true when a file or a directory is at the path. -/
def FS.pathExists (fs : FS) (p : String) : Bool := fs.dirs p || (fs.files p).isSome

/-- Model of `fs::write`: create or truncate-and-overwrite the file. -/
def FS.writeFile (fs : FS) (p s : String) : FS :=
  { fs with files := fun q => if q = p then some s else fs.files q }

/-- Model of `fs::remove_file`. -/
def FS.removeFile (fs : FS) (p : String) : FS :=
  { fs with files := fun q => if q = p then none else fs.files q }

/-- Model of `fs::create_dir_all`: the directory and all its ancestors exist. -/
def FS.createDirAll (fs : FS) (p : String) : FS :=
  { fs with dirs := fun q => fs.dirs q || q == p || p.startsWith (q ++ "/") }

/-- Rust `Path::join` for a relative child component. -/
def joinPath (base child : String) : String := base ++ "/" ++ child

/-- Line-for-line model of `FileCacheService::get_cache_item_path`. -/
def get_cache_item_path (root_path instance_name ns : String) : String :=
  joinPath (joinPath root_path instance_name) ns

/-- Line-for-line model of `FileCacheService::get_filename`:
`format!("\x7b\x7d-\x7b\x7d", cache_item_name, postfix)`. -/
def get_filename (cache_item_name pfx : String) : String :=
  cache_item_name ++ "-" ++ pfx

/-- Line-for-line model of `FileCacheService::get_cache_file_path`. -/
def get_cache_file_path (cache_item_path filename : String) : String :=
  joinPath cache_item_path filename

/-- Output of `serde_json::to_string` on `FileCacheItemMetadata`
(field order as declared; this serialisation cannot fail). -/
def metadataToJson (m : FileCacheItemMetadata) : String :=
  "\x7b\"ttl_secs\":" ++ toString m.ttl_secs ++ ",\"created_unixtime\":"
    ++ toString m.created_unixtime ++ "\x7d"

/-- The serde codec of the cached value type: `enc` is
`serde_json::to_string` (fallible), `dec` is `serde_json::from_str`. -/
structure Codec (α : Type) where
  enc : α → Option String
  dec : String → Option α

/-- Model of `FileCacheService::get_now_in_unixtime_secs`; the clock reading is
passed in as `some t` (success) or `none` (system time before epoch). -/
def get_now_in_unixtime_secs (clock : Option Nat) : Except FileCacheError Nat :=
  match clock with
  | some tm => .ok tm
  | none => .error .Default

/-- The expiry test of `FileCacheService::get` (the nested
`if now_unixtime > metadata.created_unixtime` and
`metadata.ttl_secs > 0 && diff_secs > metadata.ttl_secs` conditions). -/
def isExpired (metadata : FileCacheItemMetadata) (now_unixtime : Nat) : Bool :=
  if now_unixtime > metadata.created_unixtime then
    let diff_secs := now_unixtime - metadata.created_unixtime
    decide (metadata.ttl_secs > 0) && decide (diff_secs > metadata.ttl_secs)
  else
    false

/-- The resolved data-file path of a key:
`[root]/[instance]/[namespace]/[name]-cache.json`. -/
def dataFilePath (svc : FileCacheService) (ns name : String) : String :=
  get_cache_file_path (get_cache_item_path svc.root_path svc.instance_name ns)
    (get_filename name CACHE_FILENAME_POSTFIX)

/-- The resolved metadata-file path of a key:
`[root]/[instance]/[namespace]/[name]-cache-metadata.json`. -/
def metaFilePath (svc : FileCacheService) (ns name : String) : String :=
  get_cache_file_path (get_cache_item_path svc.root_path svc.instance_name ns)
    (get_filename name METADATA_FILENAME_POSTFIX)

/-- Model of `FileCacheService::store`.  Returns the Rust result, the final
filesystem, and the trace of filesystem mutations in the order performed. -/
def FileCacheService.store {α : Type} (svc : FileCacheService) (codec : Codec α)
    (clock : Option Nat) (fs : FS) (ns name : String) (item : α) (ttl_secs : Nat) :
    Except FileCacheError Unit × FS × List FsEvent :=
  let cache_item_path := get_cache_item_path svc.root_path svc.instance_name ns
  let fs1 := if fs.pathExists cache_item_path then fs
             else fs.createDirAll cache_item_path
  let evs1 : List FsEvent := if fs.pathExists cache_item_path then []
             else [FsEvent.createDirAll cache_item_path]
  let metadata_filename := get_filename name METADATA_FILENAME_POSTFIX
  let metadata_file_path := get_cache_file_path cache_item_path metadata_filename
  match get_now_in_unixtime_secs clock with
  | .error e => (.error e, fs1, evs1)
  | .ok now_unixtime =>
    let item_metadata : FileCacheItemMetadata :=
      { ttl_secs := ttl_secs, created_unixtime := now_unixtime }
    let metadata_json := metadataToJson item_metadata
    let fs2 := fs1.writeFile metadata_file_path metadata_json
    let evs2 := evs1 ++ [FsEvent.write metadata_file_path metadata_json]
    let filename := get_filename name CACHE_FILENAME_POSTFIX
    let file_path := get_cache_file_path cache_item_path filename
    match codec.enc item with
    | none => (.error .EncodingError, fs2, evs2)
    | some json =>
      let fs3 := if fs2.fileExists file_path then fs2.removeFile file_path else fs2
      let evs3 := if fs2.fileExists file_path then evs2 ++ [FsEvent.remove file_path]
                  else evs2
      let fs4 := fs3.writeFile file_path json
      (.ok (), fs4, evs3 ++ [FsEvent.write file_path json])

/-- Model of `FileCacheService::get`.  `decodeMetadata` is
`serde_json::from_str::<FileCacheItemMetadata>`; `codec.dec` is
`serde_json::from_str::<T>`. -/
def FileCacheService.get {α : Type} (svc : FileCacheService) (codec : Codec α)
    (decodeMetadata : String → Option FileCacheItemMetadata)
    (clock : Option Nat) (fs : FS) (ns item_name : String) :
    Except FileCacheError (Option α) × FS :=
  let cache_item_path := get_cache_item_path svc.root_path svc.instance_name ns
  let metadata_filename := get_filename item_name METADATA_FILENAME_POSTFIX
  let metadata_file_path := get_cache_file_path cache_item_path metadata_filename
  let filename := get_filename item_name CACHE_FILENAME_POSTFIX
  let file_path := get_cache_file_path cache_item_path filename
  match fs.files metadata_file_path with
  | some metadata_json =>
    match decodeMetadata metadata_json with
    | some metadata =>
      match get_now_in_unixtime_secs clock with
      | .error e => (.error e, fs)
      | .ok now_unixtime =>
        if isExpired metadata now_unixtime then
          if fs.fileExists file_path then
            (.ok none, (fs.removeFile file_path).removeFile metadata_file_path)
          else
            (.ok none, fs)
        else
          match fs.files file_path with
          | some json =>
            match codec.dec json with
            | some value => (.ok (some value), fs)
            | none => (.ok none, (fs.removeFile file_path).removeFile metadata_file_path)
          | none => (.ok none, fs)
    | none =>
      if fs.fileExists file_path then
        (.ok none, (fs.removeFile metadata_file_path).removeFile file_path)
      else
        (.ok none, fs)
  | none =>
    if fs.fileExists file_path then
      (.ok none, fs.removeFile file_path)
    else
      (.ok none, fs)

theorem files_writeFile (fs : FS) (p s q : String) :
    (fs.writeFile p s).files q = if q = p then some s else fs.files q := rfl

theorem files_removeFile (fs : FS) (p q : String) :
    (fs.removeFile p).files q = if q = p then none else fs.files q := rfl

theorem length_metaFilePath (svc : FileCacheService) (ns name : String) :
    (metaFilePath svc ns name).length =
      svc.root_path.length + svc.instance_name.length + ns.length + name.length + 23 := by
  simp only [metaFilePath, get_cache_file_path, get_cache_item_path, get_filename,
    joinPath, String.length_append]
  have h1 : String.length "/" = 1 := rfl
  have h2 : String.length "-" = 1 := rfl
  have h19 : String.length METADATA_FILENAME_POSTFIX = 19 := rfl
  omega

theorem length_dataFilePath (svc : FileCacheService) (ns name : String) :
    (dataFilePath svc ns name).length =
      svc.root_path.length + svc.instance_name.length + ns.length + name.length + 14 := by
  simp only [dataFilePath, get_cache_file_path, get_cache_item_path, get_filename,
    joinPath, String.length_append]
  have h1 : String.length "/" = 1 := rfl
  have h2 : String.length "-" = 1 := rfl
  have h10 : String.length CACHE_FILENAME_POSTFIX = 10 := rfl
  omega

theorem meta_ne_data_same (svc : FileCacheService) (ns name : String) :
    metaFilePath svc ns name ≠ dataFilePath svc ns name := by
  intro h
  have hl := congrArg String.length h
  rw [length_metaFilePath, length_dataFilePath] at hl
  omega

/-- C7: a `get` on a (namespace, name) pair that was never stored — neither the
metadata file nor the data file exists — returns `Ok(None)` and leaves the
filesystem state (files and directories) exactly as it was. -/
theorem c7_get_unknown_key_frame {α : Type} (svc : FileCacheService) (codec : Codec α)
    (decodeMetadata : String → Option FileCacheItemMetadata) (clock : Option Nat)
    (fs : FS) (ns name : String)
    (hm : fs.files (metaFilePath svc ns name) = none)
    (hd : fs.files (dataFilePath svc ns name) = none) :
    svc.get codec decodeMetadata clock fs ns name = (.ok none, fs) := by
  simp only [metaFilePath, dataFilePath] at hm hd
  simp [FileCacheService.get, FS.fileExists, hm, hd]

/-- C7 witness at a concrete empty filesystem. -/
theorem c7_witness :
    let svc : FileCacheService := { root_path := "root", instance_name := "app" }
    let fs : FS := { files := fun _ => none, dirs := fun _ => false }
    let codec : Codec Nat := { enc := fun n => some (toString n), dec := fun _ => none }
    svc.get codec (fun _ => none) (some 10) fs "ns" "user" = (.ok none, fs) := by
  exact c7_get_unknown_key_frame _ _ _ _ _ _ _ rfl rfl

/-- C10: when the metadata file exists and decodes but the clock reading fails
(system time before epoch), `get` returns the generic `Default` error — a
constructor distinct from `IOError` and `EncodingError` — and the filesystem is
left exactly as it was. -/
theorem c10_clock_failure {α : Type} (svc : FileCacheService) (codec : Codec α)
    (decodeMetadata : String → Option FileCacheItemMetadata)
    (fs : FS) (ns name : String) (mj : String) (m : FileCacheItemMetadata)
    (hm : fs.files (metaFilePath svc ns name) = some mj)
    (hdm : decodeMetadata mj = some m) :
    svc.get codec decodeMetadata none fs ns name = (.error .Default, fs) ∧
    FileCacheError.Default ≠ FileCacheError.IOError ∧
    FileCacheError.Default ≠ FileCacheError.EncodingError := by
  refine ⟨?_, by simp, by simp⟩
  simp only [metaFilePath] at hm
  simp [FileCacheService.get, get_now_in_unixtime_secs, hm, hdm]

/-- C10 witness: concrete service, one decodable metadata file, clock failure. -/
theorem c10_witness :
    let svc : FileCacheService := { root_path := "root", instance_name := "app" }
    let mp := metaFilePath svc "ns" "user"
    let fs : FS := { files := fun p => if p = mp then some "meta" else none,
                     dirs := fun _ => false }
    let dm : String → Option FileCacheItemMetadata :=
      fun s => if s = "meta" then some { ttl_secs := 5, created_unixtime := 3 } else none
    let codec : Codec Nat := { enc := fun n => some (toString n), dec := fun _ => none }
    svc.get codec dm none fs "ns" "user" = (.error .Default, fs) := by
  exact (c10_clock_failure _ _ _ _ _ _ "meta" { ttl_secs := 5, created_unixtime := 3 }
    (by simp) (by simp)).1

/-- C4: when the metadata file is absent, `get` returns `Ok(None)`; if a data
file exists it is deleted (orphan cleanup) and otherwise the filesystem is
untouched, so `get` never produces a value without a decoded metadata file. -/
theorem c4_metadata_absent {α : Type} (svc : FileCacheService) (codec : Codec α)
    (decodeMetadata : String → Option FileCacheItemMetadata) (clock : Option Nat)
    (fs : FS) (ns name : String)
    (hm : fs.files (metaFilePath svc ns name) = none) :
    svc.get codec decodeMetadata clock fs ns name =
      (.ok none,
        if (fs.files (dataFilePath svc ns name)).isSome then
          fs.removeFile (dataFilePath svc ns name)
        else fs) := by
  simp only [metaFilePath] at hm
  cases hd : fs.files (dataFilePath svc ns name) with
  | none =>
    simp only [dataFilePath] at hd
    simp [FileCacheService.get, FS.fileExists, hm, hd, dataFilePath]
  | some s =>
    simp only [dataFilePath] at hd
    simp [FileCacheService.get, FS.fileExists, hm, hd, dataFilePath]

/-- C4 witness: an orphan data file is removed and `Ok(None)` is returned. -/
theorem c4_witness :
    let svc : FileCacheService := { root_path := "root", instance_name := "app" }
    let dp := dataFilePath svc "ns" "user"
    let fs : FS := { files := fun p => if p = dp then some "orphan" else none,
                     dirs := fun _ => false }
    let codec : Codec Nat := { enc := fun n => some (toString n), dec := fun _ => none }
    svc.get codec (fun _ => none) (some 10) fs "ns" "user" =
      (.ok none, fs.removeFile dp) := by
  have h := c4_metadata_absent (α := Nat)
    { root_path := "root", instance_name := "app" }
    { enc := fun n => some (toString n), dec := fun _ => none }
    (fun _ => none) (some 10)
    { files := fun p => if p = dataFilePath
        { root_path := "root", instance_name := "app" } "ns" "user" then some "orphan"
        else none,
      dirs := fun _ => false }
    "ns" "user"
    (by simp [(meta_ne_data_same { root_path := "root", instance_name := "app" } "ns" "user")])
  simpa using h

/-- C2: an item whose metadata decodes is treated as expired exactly when
`now > created_unixtime`, `ttl_secs > 0` and `now - created_unixtime > ttl_secs`;
`ttl_secs = 0` is immortal and `now ≤ created_unixtime` (clock skew) is never
expired; when expired, `get` returns `Ok(None)` and deletes both files when the
data file exists (and touches nothing when it does not). -/
theorem c2_expiry_condition {α : Type} (svc : FileCacheService) (codec : Codec α)
    (decodeMetadata : String → Option FileCacheItemMetadata)
    (fs : FS) (ns name : String) (mj : String) (m : FileCacheItemMetadata) (now : Nat)
    (hm : fs.files (metaFilePath svc ns name) = some mj)
    (hdm : decodeMetadata mj = some m) :
    (isExpired m now = true ↔
      (m.created_unixtime < now ∧ 0 < m.ttl_secs ∧
        m.ttl_secs < now - m.created_unixtime)) ∧
    (m.ttl_secs = 0 → isExpired m now = false) ∧
    (now ≤ m.created_unixtime → isExpired m now = false) ∧
    (isExpired m now = true →
      svc.get codec decodeMetadata (some now) fs ns name =
        (.ok none,
          if (fs.files (dataFilePath svc ns name)).isSome then
            (fs.removeFile (dataFilePath svc ns name)).removeFile (metaFilePath svc ns name)
          else fs)) := by
  refine ⟨?_, ?_, ?_, ?_⟩
  · simp only [isExpired, gt_iff_lt]
    split_ifs with h
    · simp only [Bool.and_eq_true, decide_eq_true_eq]
      omega
    · simp only [Bool.false_eq_true, false_iff]
      omega
  · intro h0
    simp [isExpired, h0]
  · intro hle
    simp only [isExpired, gt_iff_lt]
    split_ifs with h
    · omega
    · rfl
  · intro hexp
    simp only [metaFilePath] at hm
    cases hd : fs.files (dataFilePath svc ns name) with
    | none =>
      simp only [dataFilePath] at hd
      simp [FileCacheService.get, get_now_in_unixtime_secs, FS.fileExists, hm, hdm,
        hexp, hd, dataFilePath, metaFilePath]
    | some s =>
      simp only [dataFilePath] at hd
      simp [FileCacheService.get, get_now_in_unixtime_secs, FS.fileExists, hm, hdm,
        hexp, hd, dataFilePath, metaFilePath]

/-- Concrete service fixture used by witnesses. -/
def svcW : FileCacheService := { root_path := "root", instance_name := "app" }

/-- Concrete metadata-file path fixture. -/
def mpW : String := metaFilePath svcW "ns" "user"

/-- Concrete data-file path fixture. -/
def dpW : String := dataFilePath svcW "ns" "user"

/-- Concrete codec fixture on natural numbers. -/
def codecW : Codec Nat :=
  { enc := fun n => some (toString n), dec := fun s => if s = "7" then some 7 else none }

/-- Concrete metadata decoder fixture. -/
def dmW : String → Option FileCacheItemMetadata :=
  fun s => if s = "meta" then some { ttl_secs := 5, created_unixtime := 3 } else none

/-- Fixture filesystem holding a metadata file and a data file. -/
def fsBoth : FS :=
  { files := fun p => if p = mpW then some "meta" else
      if p = dpW then some "data" else none,
    dirs := fun _ => false }

/-- Fixture filesystem with a corrupt metadata file and a data file. -/
def fsGarbBoth : FS :=
  { files := fun p => if p = mpW then some "garbage" else
      if p = dpW then some "data" else none,
    dirs := fun _ => false }

theorem dp_ne_mp : dataFilePath svcW "ns" "user" ≠ mpW := by
  intro hc
  exact meta_ne_data_same svcW "ns" "user" hc.symm

/-- C2 witness: metadata with ttl 5 created at 3 read at 100 is expired and
both files are removed. -/
theorem c2_witness :
    isExpired { ttl_secs := 5, created_unixtime := 3 } 100 = true ∧
    svcW.get codecW dmW (some 100) fsBoth "ns" "user" =
      (.ok none, (fsBoth.removeFile dpW).removeFile mpW) := by
  have hmp : fsBoth.files (metaFilePath svcW "ns" "user") = some "meta" := by
    simp [fsBoth, mpW]
  have hdm : dmW "meta" = some { ttl_secs := 5, created_unixtime := 3 } := by simp [dmW]
  have h := (c2_expiry_condition svcW codecW dmW fsBoth "ns" "user" "meta"
    { ttl_secs := 5, created_unixtime := 3 } 100 hmp hdm).2.2.2 (by decide)
  have hdp : fsBoth.files (dataFilePath svcW "ns" "user") = some "data" := by
    simp [fsBoth, dpW, dp_ne_mp]
  refine ⟨by decide, ?_⟩
  rw [h]
  simp [hdp, dpW, mpW]

/-- C3 counterexample: metadata file present but undecodable while the data
file is absent — `get` returns `Ok(None)` yet deletes nothing, so the corrupt
metadata file still exists afterwards, contradicting the claim that afterwards
neither file exists for the key. -/
theorem c3_counterexample :
    let svc : FileCacheService := { root_path := "root", instance_name := "app" }
    let mp := metaFilePath svc "ns" "user"
    let fs : FS := { files := fun p => if p = mp then some "garbage" else none,
                     dirs := fun _ => false }
    let dm : String → Option FileCacheItemMetadata := fun _ => none
    let codec : Codec Nat := { enc := fun n => some (toString n), dec := fun _ => none }
    fs.files mp = some "garbage" ∧
    dm "garbage" = none ∧
    svc.get codec dm (some 10) fs "ns" "user" = (.ok none, fs) ∧
    (svc.get codec dm (some 10) fs "ns" "user").2.files mp = some "garbage" := by
  refine ⟨by simp, rfl, ?_, ?_⟩ <;> rfl

/-- C3 amended: when the metadata file exists but fails to decode, `get`
returns `Ok(None)`; if the data file exists both files are deleted, and if the
data file is absent nothing is deleted, so the corrupt metadata file remains. -/
theorem c3_corrupt_metadata_cleanup {α : Type} (svc : FileCacheService)
    (codec : Codec α) (decodeMetadata : String → Option FileCacheItemMetadata)
    (clock : Option Nat) (fs : FS) (ns name : String) (mj : String)
    (hm : fs.files (metaFilePath svc ns name) = some mj)
    (hdm : decodeMetadata mj = none) :
    svc.get codec decodeMetadata clock fs ns name =
      (.ok none,
        if (fs.files (dataFilePath svc ns name)).isSome then
          (fs.removeFile (metaFilePath svc ns name)).removeFile (dataFilePath svc ns name)
        else fs) := by
  simp only [metaFilePath] at hm
  cases hd : fs.files (dataFilePath svc ns name) with
  | none =>
    simp only [dataFilePath] at hd
    simp [FileCacheService.get, FS.fileExists, hm, hdm, hd, dataFilePath, metaFilePath]
  | some s =>
    simp only [dataFilePath] at hd
    simp [FileCacheService.get, FS.fileExists, hm, hdm, hd, dataFilePath, metaFilePath]

/-- C3 amended witness: corrupt metadata with a data file present — both files
are removed and `Ok(None)` is returned. -/
theorem c3_amended_witness :
    svcW.get codecW (fun _ => none) (some 10) fsGarbBoth "ns" "user" =
      (.ok none, (fsGarbBoth.removeFile mpW).removeFile dpW) := by
  have hmp : fsGarbBoth.files (metaFilePath svcW "ns" "user") = some "garbage" := by
    simp [fsGarbBoth, mpW]
  have h := c3_corrupt_metadata_cleanup svcW codecW (fun _ => none) (some 10) fsGarbBoth
    "ns" "user" "garbage" hmp rfl
  have hdp : fsGarbBoth.files (dataFilePath svcW "ns" "user") = some "data" := by
    simp [fsGarbBoth, dpW, dp_ne_mp]
  rw [h]
  simp [hdp, dpW, mpW]

theorem files_createDirAll (fs : FS) (p : String) :
    (fs.createDirAll p).files = fs.files := rfl

theorem store_ok_state {α : Type} (svc : FileCacheService) (codec : Codec α)
    (fs : FS) (ns name : String) (item : α) (ttl t : Nat) (s : String)
    (henc : codec.enc item = some s) :
    (svc.store codec (some t) fs ns name item ttl).1 = .ok () ∧
    ((svc.store codec (some t) fs ns name item ttl).2.1).files (dataFilePath svc ns name)
      = some s ∧
    ((svc.store codec (some t) fs ns name item ttl).2.1).files (metaFilePath svc ns name)
      = some (metadataToJson { ttl_secs := ttl, created_unixtime := t }) := by
  have hne : metaFilePath svc ns name ≠ dataFilePath svc ns name :=
    meta_ne_data_same svc ns name
  simp only [FileCacheService.store, get_now_in_unixtime_secs, henc]
  simp only [metaFilePath, dataFilePath] at hne ⊢
  cases hpe : fs.pathExists (get_cache_item_path svc.root_path svc.instance_name ns) <;>
    cases hfe : FS.fileExists _ (get_cache_file_path
      (get_cache_item_path svc.root_path svc.instance_name ns)
      (get_filename name CACHE_FILENAME_POSTFIX)) <;>
    simp_all [FS.writeFile, FS.removeFile, FS.fileExists, FS.createDirAll, hne]

theorem store_clock_fail {α : Type} (svc : FileCacheService) (codec : Codec α)
    (fs : FS) (ns name : String) (item : α) (ttl : Nat) :
    (svc.store codec none fs ns name item ttl).1 = .error .Default := by
  simp only [FileCacheService.store, get_now_in_unixtime_secs]

theorem store_enc_fail_state {α : Type} (svc : FileCacheService) (codec : Codec α)
    (fs : FS) (ns name : String) (item : α) (ttl t : Nat)
    (henc : codec.enc item = none) :
    (svc.store codec (some t) fs ns name item ttl).1 = .error .EncodingError ∧
    ((svc.store codec (some t) fs ns name item ttl).2.1).files (metaFilePath svc ns name)
      = some (metadataToJson { ttl_secs := ttl, created_unixtime := t }) ∧
    ((svc.store codec (some t) fs ns name item ttl).2.1).files (dataFilePath svc ns name)
      = fs.files (dataFilePath svc ns name) := by
  have hne : metaFilePath svc ns name ≠ dataFilePath svc ns name :=
    meta_ne_data_same svc ns name
  simp only [FileCacheService.store, get_now_in_unixtime_secs, henc]
  simp only [metaFilePath, dataFilePath] at hne ⊢
  have hne2 := Ne.symm hne
  cases hpe : fs.pathExists (get_cache_item_path svc.root_path svc.instance_name ns) <;>
    simp_all [FS.writeFile, FS.createDirAll, hne, hne2]

theorem get_hit {α : Type} (svc : FileCacheService) (codec : Codec α)
    (decodeMetadata : String → Option FileCacheItemMetadata)
    (fs : FS) (ns name : String) (mj : String) (m : FileCacheItemMetadata)
    (now : Nat) (json : String) (v : α)
    (hm : fs.files (metaFilePath svc ns name) = some mj)
    (hdm : decodeMetadata mj = some m)
    (hexp : isExpired m now = false)
    (hd : fs.files (dataFilePath svc ns name) = some json)
    (hdec : codec.dec json = some v) :
    svc.get codec decodeMetadata (some now) fs ns name = (.ok (some v), fs) := by
  simp only [metaFilePath] at hm
  simp only [dataFilePath] at hd
  simp [FileCacheService.get, get_now_in_unixtime_secs, hm, hdm, hexp, hd, hdec]

/-- C1: a successful `store` at clock time `t1` followed by a `get` at clock
time `t2` on the same service returns `Ok(Some(v))` whenever `ttl = 0` or the
elapsed time is below `ttl`, assuming the value codec and the metadata decoder
invert the respective encodings. -/
theorem c1_round_trip {α : Type} (svc : FileCacheService) (codec : Codec α)
    (decodeMetadata : String → Option FileCacheItemMetadata)
    (fs : FS) (ns name : String) (v : α) (ttl t1 t2 : Nat) (s : String)
    (henc : codec.enc v = some s)
    (hdec : codec.dec s = some v)
    (hdm : decodeMetadata (metadataToJson { ttl_secs := ttl, created_unixtime := t1 })
      = some { ttl_secs := ttl, created_unixtime := t1 })
    (httl : ttl = 0 ∨ t2 - t1 < ttl) :
    (svc.store codec (some t1) fs ns name v ttl).1 = .ok () ∧
    (svc.get codec decodeMetadata (some t2)
        ((svc.store codec (some t1) fs ns name v ttl).2.1) ns name).1
      = .ok (some v) := by
  obtain ⟨hok, hdata, hmeta⟩ := store_ok_state svc codec fs ns name v ttl t1 s henc
  have hexp : isExpired { ttl_secs := ttl, created_unixtime := t1 } t2 = false := by
    rcases httl with h0 | hlt
    · simp [isExpired, h0]
    · simp only [isExpired, gt_iff_lt]
      split_ifs with h
      · have hf : decide (ttl < t2 - t1) = false := by
          simp only [decide_eq_false_iff_not]
          omega
        simp [hf]
      · rfl
  refine ⟨hok, ?_⟩
  rw [get_hit svc codec decodeMetadata _ ns name _ _ t2 s v hmeta hdm hexp hdata hdec]

/-- C1 witness: store 7 with ttl 0 at time 5, get at time 100 returns 7. -/
theorem c1_witness :
    (svcW.store codecW (some 5) fsBoth "ns" "user" 7 0).1 = .ok () ∧
    (svcW.get codecW
        (fun s => if s = metadataToJson { ttl_secs := 0, created_unixtime := 5 } then
          some { ttl_secs := 0, created_unixtime := 5 } else none)
        (some 100) ((svcW.store codecW (some 5) fsBoth "ns" "user" 7 0).2.1)
        "ns" "user").1
      = .ok (some 7) := by
  exact c1_round_trip svcW codecW _ fsBoth "ns" "user" 7 0 5 100 "7"
    rfl (by simp [codecW]) (by simp) (Or.inl rfl)

/-- C9: when serialising the value fails during `store`, the call returns
`EncodingError`, but the metadata file has already been overwritten with the
new ttl and creation time while the old data file is untouched; a later `get`
can then return the old value under the new metadata. -/
theorem c9_encode_failure_not_atomic {α : Type} (svc : FileCacheService)
    (codec : Codec α) (decodeMetadata : String → Option FileCacheItemMetadata)
    (fs : FS) (ns name : String) (item : α) (ttl t t2 : Nat)
    (oldJson : String) (w : α)
    (henc : codec.enc item = none) :
    (svc.store codec (some t) fs ns name item ttl).1 = .error .EncodingError ∧
    ((svc.store codec (some t) fs ns name item ttl).2.1).files (metaFilePath svc ns name)
      = some (metadataToJson { ttl_secs := ttl, created_unixtime := t }) ∧
    ((svc.store codec (some t) fs ns name item ttl).2.1).files (dataFilePath svc ns name)
      = fs.files (dataFilePath svc ns name) ∧
    (decodeMetadata (metadataToJson { ttl_secs := ttl, created_unixtime := t })
        = some { ttl_secs := ttl, created_unixtime := t } →
      fs.files (dataFilePath svc ns name) = some oldJson →
      codec.dec oldJson = some w →
      isExpired { ttl_secs := ttl, created_unixtime := t } t2 = false →
      (svc.get codec decodeMetadata (some t2)
          ((svc.store codec (some t) fs ns name item ttl).2.1) ns name).1
        = .ok (some w)) := by
  obtain ⟨herr, hmeta, hdata⟩ := store_enc_fail_state svc codec fs ns name item ttl t henc
  refine ⟨herr, hmeta, hdata, fun hdm hold hdec hexp => ?_⟩
  rw [get_hit svc codec decodeMetadata _ ns name _ _ t2 oldJson w hmeta hdm hexp
    (hdata.trans hold) hdec]

/-- C9 witness: a codec that cannot encode, over a filesystem holding an old
decodable data file; the metadata is refreshed, the data file survives, and a
later get returns the old value. -/
theorem c9_witness :
    let badCodec : Codec Nat :=
      { enc := fun _ => none, dec := fun s => if s = "data" then some 42 else none }
    let dm : String → Option FileCacheItemMetadata :=
      fun s => if s = metadataToJson { ttl_secs := 0, created_unixtime := 5 } then
        some { ttl_secs := 0, created_unixtime := 5 } else none
    (svcW.store badCodec (some 5) fsBoth "ns" "user" 3 0).1 = .error .EncodingError ∧
    (svcW.get badCodec dm (some 100)
        ((svcW.store badCodec (some 5) fsBoth "ns" "user" 3 0).2.1) "ns" "user").1
      = .ok (some 42) := by
  intro badCodec dm
  have hold : fsBoth.files (dataFilePath svcW "ns" "user") = some "data" := by
    simp [fsBoth, dpW, dp_ne_mp]
  have h := c9_encode_failure_not_atomic svcW badCodec dm fsBoth "ns" "user" 3 0 5 100
    "data" 42 rfl
  exact ⟨h.1, h.2.2.2 (by simp [dm]) hold (by simp [badCodec]) (by simp [isExpired])⟩

/-- C5: after any `store` or `get` call that returns `Ok`, the layout invariant
holds for the accessed key: if the data file exists then its metadata companion
exists. -/
theorem c5_layout_invariant {α : Type} (svc : FileCacheService) (codec : Codec α)
    (decodeMetadata : String → Option FileCacheItemMetadata) (clock : Option Nat)
    (fs : FS) (ns name : String) (item : α) (ttl : Nat) (r : Option α) :
    ((svc.store codec clock fs ns name item ttl).1 = .ok () →
      (((svc.store codec clock fs ns name item ttl).2.1).files
          (dataFilePath svc ns name)).isSome = true →
      (((svc.store codec clock fs ns name item ttl).2.1).files
          (metaFilePath svc ns name)).isSome = true) ∧
    ((svc.get codec decodeMetadata clock fs ns name).1 = .ok r →
      (((svc.get codec decodeMetadata clock fs ns name).2).files
          (dataFilePath svc ns name)).isSome = true →
      (((svc.get codec decodeMetadata clock fs ns name).2).files
          (metaFilePath svc ns name)).isSome = true) := by
  have hne : metaFilePath svc ns name ≠ dataFilePath svc ns name :=
    meta_ne_data_same svc ns name
  constructor
  · intro hok _
    cases clock with
    | none =>
      rw [store_clock_fail svc codec fs ns name item ttl] at hok
      exact absurd hok (by simp)
    | some t =>
      cases henc : codec.enc item with
      | none =>
        have := (store_enc_fail_state svc codec fs ns name item ttl t henc).1
        rw [this] at hok
        exact absurd hok (by simp)
      | some s =>
        obtain ⟨_, _, hmeta⟩ := store_ok_state svc codec fs ns name item ttl t s henc
        rw [hmeta]
        rfl
  · intro hok hdata
    have hne2 : dataFilePath svc ns name ≠ metaFilePath svc ns name := Ne.symm hne
    simp only [metaFilePath, dataFilePath] at hne hne2 hdata ⊢
    unfold FileCacheService.get at hok hdata ⊢
    cases hm : fs.files (get_cache_file_path
        (get_cache_item_path svc.root_path svc.instance_name ns)
        (get_filename name METADATA_FILENAME_POSTFIX)) with
    | none =>
      simp only [hm] at hdata ⊢
      cases hfe : fs.files (get_cache_file_path
          (get_cache_item_path svc.root_path svc.instance_name ns)
          (get_filename name CACHE_FILENAME_POSTFIX)) <;>
        simp_all [FS.fileExists, FS.removeFile]
    | some mj =>
      cases hdm : decodeMetadata mj with
      | none =>
        simp only [hm, hdm] at hdata ⊢
        cases hfe : fs.files (get_cache_file_path
            (get_cache_item_path svc.root_path svc.instance_name ns)
            (get_filename name CACHE_FILENAME_POSTFIX)) <;>
          simp_all [FS.fileExists, FS.removeFile]
      | some m =>
        cases clock with
        | none => simp [hm, hdm, get_now_in_unixtime_secs] at hok
        | some now =>
          cases hexp : isExpired m now with
          | true =>
            simp only [hm, hdm, get_now_in_unixtime_secs, hexp] at hdata ⊢
            cases hfe : fs.files (get_cache_file_path
                (get_cache_item_path svc.root_path svc.instance_name ns)
                (get_filename name CACHE_FILENAME_POSTFIX)) <;>
              simp_all [FS.fileExists, FS.removeFile, hne2]
          | false =>
            cases hd : fs.files (get_cache_file_path
                (get_cache_item_path svc.root_path svc.instance_name ns)
                (get_filename name CACHE_FILENAME_POSTFIX)) with
            | none => simp_all [get_now_in_unixtime_secs]
            | some json =>
              cases hdec : codec.dec json with
              | none =>
                simp only [hm, hdm, get_now_in_unixtime_secs, hexp, hd, hdec] at hdata ⊢
                simp_all [FS.removeFile, hne2]
              | some v =>
                simp only [hm, hdm, get_now_in_unixtime_secs, hexp, hd, hdec] at hdata ⊢
                simp [hm]

/-- C5 witness: after a concrete successful store the data file exists and the
invariant yields the metadata companion. -/
theorem c5_witness :
    (svcW.store codecW (some 5) fsBoth "ns" "user" 7 0).1 = .ok () ∧
    (((svcW.store codecW (some 5) fsBoth "ns" "user" 7 0).2.1).files
        (metaFilePath svcW "ns" "user")).isSome = true :=
  ⟨rfl, (c5_layout_invariant svcW codecW dmW (some 5) fsBoth "ns" "user" 7 0 none).1
    rfl rfl⟩

def FsEvent.isWriteTo (e : FsEvent) (p : String) : Bool :=
  match e with
  | .write q _ => q == p
  | _ => false

def FsEvent.isRemoveOf (e : FsEvent) (p : String) : Bool :=
  match e with
  | .remove q => q == p
  | _ => false

/-- C6: in every store call whose clock reading succeeds, the metadata file is
written unconditionally (the event always occurs and no remove of the metadata
path ever occurs, so a prior metadata file is overwritten in place); when the
value encodes, the data write occurs strictly after the metadata write, and a
pre-existing data file is removed strictly before the new data is written. -/
theorem c6_write_order {α : Type} (svc : FileCacheService) (codec : Codec α)
    (fs : FS) (ns name : String) (item : α) (ttl t : Nat) (s : String) :
    FsEvent.write (metaFilePath svc ns name)
        (metadataToJson { ttl_secs := ttl, created_unixtime := t })
      ∈ (svc.store codec (some t) fs ns name item ttl).2.2 ∧
    ((svc.store codec (some t) fs ns name item ttl).2.2).countP
        (fun e => e.isRemoveOf (metaFilePath svc ns name)) = 0 ∧
    (codec.enc item = some s →
      FsEvent.write (dataFilePath svc ns name) s
        ∈ (svc.store codec (some t) fs ns name item ttl).2.2 ∧
      ((svc.store codec (some t) fs ns name item ttl).2.2).findIdx
          (fun e => e.isWriteTo (metaFilePath svc ns name)) <
        ((svc.store codec (some t) fs ns name item ttl).2.2).findIdx
          (fun e => e.isWriteTo (dataFilePath svc ns name))) ∧
    (codec.enc item = some s → fs.fileExists (dataFilePath svc ns name) = true →
      ((svc.store codec (some t) fs ns name item ttl).2.2).findIdx
          (fun e => e.isRemoveOf (dataFilePath svc ns name)) <
        ((svc.store codec (some t) fs ns name item ttl).2.2).findIdx
          (fun e => e.isWriteTo (dataFilePath svc ns name))) := by
  have hne : metaFilePath svc ns name ≠ dataFilePath svc ns name :=
    meta_ne_data_same svc ns name
  have hne2 : dataFilePath svc ns name ≠ metaFilePath svc ns name := Ne.symm hne
  refine ⟨?_, ?_, fun henc => ?_, fun henc hfe => ?_⟩
  · simp only [metaFilePath, dataFilePath] at hne hne2 ⊢
    cases hpe : fs.pathExists (get_cache_item_path svc.root_path svc.instance_name ns) <;>
      cases he : codec.enc item <;>
      cases hd : fs.files (get_cache_file_path
          (get_cache_item_path svc.root_path svc.instance_name ns)
          (get_filename name CACHE_FILENAME_POSTFIX)) <;>
      simp_all [FileCacheService.store, get_now_in_unixtime_secs, FS.fileExists,
        FS.writeFile, FS.createDirAll, hne2]
  · simp only [metaFilePath, dataFilePath] at hne hne2 ⊢
    cases hpe : fs.pathExists (get_cache_item_path svc.root_path svc.instance_name ns) <;>
      cases he : codec.enc item <;>
      cases hd : fs.files (get_cache_file_path
          (get_cache_item_path svc.root_path svc.instance_name ns)
          (get_filename name CACHE_FILENAME_POSTFIX)) <;>
      simp_all [FileCacheService.store, get_now_in_unixtime_secs, FS.fileExists,
        FS.writeFile, FS.createDirAll, FsEvent.isRemoveOf, List.countP_cons,
        beq_iff_eq, hne2]
  · simp only [metaFilePath, dataFilePath] at hne hne2 ⊢
    cases hpe : fs.pathExists (get_cache_item_path svc.root_path svc.instance_name ns) <;>
      cases hd : fs.files (get_cache_file_path
          (get_cache_item_path svc.root_path svc.instance_name ns)
          (get_filename name CACHE_FILENAME_POSTFIX)) <;>
      simp_all [FileCacheService.store, get_now_in_unixtime_secs, FS.fileExists,
        FS.writeFile, FS.createDirAll, FsEvent.isWriteTo, List.findIdx_cons,
        Bool.cond_eq_ite, beq_iff_eq, hne, hne2]
  · obtain ⟨j, hd⟩ := Option.isSome_iff_exists.mp hfe
    simp only [metaFilePath, dataFilePath] at hne hne2 hd ⊢
    cases hpe : fs.pathExists (get_cache_item_path svc.root_path svc.instance_name ns) <;>
      simp_all [FileCacheService.store, get_now_in_unixtime_secs, FS.fileExists,
        FS.writeFile, FS.createDirAll, FsEvent.isWriteTo, FsEvent.isRemoveOf,
        List.findIdx_cons, Bool.cond_eq_ite, beq_iff_eq, hne, hne2]

/-- C6 witness over a filesystem already holding both files. -/
theorem c6_witness :
    FsEvent.write (metaFilePath svcW "ns" "user")
        (metadataToJson { ttl_secs := 0, created_unixtime := 5 })
      ∈ (svcW.store codecW (some 5) fsBoth "ns" "user" 7 0).2.2 ∧
    FsEvent.write (dataFilePath svcW "ns" "user") "7"
      ∈ (svcW.store codecW (some 5) fsBoth "ns" "user" 7 0).2.2 ∧
    ((svcW.store codecW (some 5) fsBoth "ns" "user" 7 0).2.2).findIdx
        (fun e => e.isWriteTo (metaFilePath svcW "ns" "user")) <
      ((svcW.store codecW (some 5) fsBoth "ns" "user" 7 0).2.2).findIdx
        (fun e => e.isWriteTo (dataFilePath svcW "ns" "user")) ∧
    ((svcW.store codecW (some 5) fsBoth "ns" "user" 7 0).2.2).findIdx
        (fun e => e.isRemoveOf (dataFilePath svcW "ns" "user")) <
      ((svcW.store codecW (some 5) fsBoth "ns" "user" 7 0).2.2).findIdx
        (fun e => e.isWriteTo (dataFilePath svcW "ns" "user")) := by
  have h := c6_write_order svcW codecW fsBoth "ns" "user" 7 0 5 "7"
  have hfe : fsBoth.fileExists (dataFilePath svcW "ns" "user") = true := by
    simp [FS.fileExists, fsBoth, dpW, dp_ne_mp]
  exact ⟨h.1, (h.2.2.1 rfl).1, (h.2.2.1 rfl).2, h.2.2.2 rfl hfe⟩

theorem dash_data : "-".data = ['-'] := rfl

theorem slash_data : "/".data = ['/'] := rfl

theorem split_at_sep {c : Char} :
    ∀ {l₁ l₂ t₁ t₂ : List Char},
      l₁ ++ c :: t₁ = l₂ ++ c :: t₂ → c ∉ l₁ → c ∉ l₂ → l₁ = l₂ ∧ t₁ = t₂ := by
  intro l₁
  induction l₁ with
  | nil =>
    intro l₂ t₁ t₂ h h₁ h₂
    cases l₂ with
    | nil => simpa using h
    | cons d l =>
      simp only [List.nil_append, List.cons_append, List.cons.injEq] at h
      exact absurd (h.1 ▸ List.mem_cons_self d l) h₂
  | cons d l ih =>
    intro l₂ t₁ t₂ h h₁ h₂
    cases l₂ with
    | nil =>
      simp only [List.cons_append, List.nil_append, List.cons.injEq] at h
      exact absurd (h.1 ▸ List.mem_cons_self d l) h₁
    | cons d' l' =>
      simp only [List.cons_append, List.cons.injEq] at h
      obtain ⟨hd, ht⟩ := h
      obtain ⟨he, ht'⟩ := ih ht (fun hm => h₁ (List.mem_cons_of_mem d hm))
        (fun hm => h₂ (List.mem_cons_of_mem d' hm))
      exact ⟨by rw [hd, he], ht'⟩

theorem suffix_clash (m₁ m₂ : List Char) :
    m₁ ++ '-' :: String.data CACHE_FILENAME_POSTFIX ≠
      m₂ ++ '-' :: String.data METADATA_FILENAME_POSTFIX := by
  intro h
  have hc11 : ('-' :: String.data CACHE_FILENAME_POSTFIX).length = 11 := rfl
  have hm20 : ('-' :: String.data METADATA_FILENAME_POSTFIX).length = 20 := rfl
  have hlen := congrArg List.length h
  simp only [List.length_append, hc11, hm20] at hlen
  have h2 := congrArg (List.drop m₁.length) h
  rw [List.drop_left] at h2
  rw [show m₁.length = m₂.length + 9 by omega, List.drop_append] at h2
  exact absurd h2 (by decide)

/-- C8: path and filename derivation is pure: the directory is
root/instance/namespace and the filenames are the name followed by
`-cache.json` and `-cache-metadata.json`; for identifiers free of the path
separator the derived paths are injective in (namespace, name) within one
instance, and a data-file path never coincides with a metadata-file path. -/
theorem c8_path_derivation (root inst ns₁ n₁ ns₂ n₂ : String)
    (hns₁ : '/' ∉ ns₁.data) (hns₂ : '/' ∉ ns₂.data)
    (hn₁ : '/' ∉ n₁.data) (hn₂ : '/' ∉ n₂.data) :
    get_cache_item_path root inst ns₁ = root ++ "/" ++ inst ++ "/" ++ ns₁ ∧
    get_filename n₁ CACHE_FILENAME_POSTFIX = n₁ ++ "-cache.json" ∧
    get_filename n₁ METADATA_FILENAME_POSTFIX = n₁ ++ "-cache-metadata.json" ∧
    (dataFilePath ⟨root, inst⟩ ns₁ n₁ = dataFilePath ⟨root, inst⟩ ns₂ n₂ →
      ns₁ = ns₂ ∧ n₁ = n₂) ∧
    (metaFilePath ⟨root, inst⟩ ns₁ n₁ = metaFilePath ⟨root, inst⟩ ns₂ n₂ →
      ns₁ = ns₂ ∧ n₁ = n₂) ∧
    dataFilePath ⟨root, inst⟩ ns₁ n₁ ≠ metaFilePath ⟨root, inst⟩ ns₂ n₂ := by
  refine ⟨rfl, ?_, ?_, ?_, ?_, ?_⟩
  · apply String.ext
    simp only [get_filename, String.data_append, List.append_assoc]
    rfl
  · apply String.ext
    simp only [get_filename, String.data_append, List.append_assoc]
    rfl
  · intro h
    have hd := congrArg String.data h
    simp only [dataFilePath, get_cache_file_path, get_cache_item_path, get_filename,
      joinPath, String.data_append, dash_data, slash_data, List.append_assoc,
      List.singleton_append, List.cons_append, List.nil_append] at hd
    have h₁ := List.append_cancel_left hd
    simp only [List.cons.injEq, true_and] at h₁
    have h₂ := List.append_cancel_left h₁
    simp only [List.cons.injEq, true_and] at h₂
    obtain ⟨hns, htail⟩ := split_at_sep h₂ hns₁ hns₂
    have hn : n₁.data = n₂.data := (List.append_inj' htail rfl).1
    exact ⟨String.ext hns, String.ext hn⟩
  · intro h
    have hd := congrArg String.data h
    simp only [metaFilePath, get_cache_file_path, get_cache_item_path, get_filename,
      joinPath, String.data_append, dash_data, slash_data, List.append_assoc,
      List.singleton_append, List.cons_append, List.nil_append] at hd
    have h₁ := List.append_cancel_left hd
    simp only [List.cons.injEq, true_and] at h₁
    have h₂ := List.append_cancel_left h₁
    simp only [List.cons.injEq, true_and] at h₂
    obtain ⟨hns, htail⟩ := split_at_sep h₂ hns₁ hns₂
    have hn : n₁.data = n₂.data := (List.append_inj' htail rfl).1
    exact ⟨String.ext hns, String.ext hn⟩
  · intro h
    have hd := congrArg String.data h
    simp only [dataFilePath, metaFilePath, get_cache_file_path, get_cache_item_path,
      get_filename, joinPath, String.data_append, dash_data, slash_data,
      List.append_assoc, List.singleton_append, List.cons_append,
      List.nil_append] at hd
    have h₁ := List.append_cancel_left hd
    simp only [List.cons.injEq, true_and] at h₁
    have h₂ := List.append_cancel_left h₁
    simp only [List.cons.injEq, true_and] at h₂
    obtain ⟨hns, htail⟩ := split_at_sep h₂ hns₁ hns₂
    exact suffix_clash n₁.data n₂.data htail

/-- C8 witness at concrete separator-free identifiers. -/
theorem c8_witness :
    get_cache_item_path "root" "app" "ns" = "root" ++ "/" ++ "app" ++ "/" ++ "ns" ∧
    get_filename "user" CACHE_FILENAME_POSTFIX = "user" ++ "-cache.json" ∧
    get_filename "user" METADATA_FILENAME_POSTFIX = "user" ++ "-cache-metadata.json" ∧
    dataFilePath ⟨"root", "app"⟩ "ns" "user" ≠ metaFilePath ⟨"root", "app"⟩ "ns" "user" := by
  have h := c8_path_derivation "root" "app" "ns" "user" "ns" "user"
    (by decide) (by decide) (by decide) (by decide)
  exact ⟨h.1, h.2.1, h.2.2.1, h.2.2.2.2.2⟩

end Fkesh
